import Mathlib

/-!
Verification of the FMCSA Register extraction-and-classification pipeline.

The development shallowly embeds the TypeScript sources:
  * the Express route handler in the backend proxy (marker gate, docket
    scanner, category classifier, deduplication),
  * the serverless handler (same extraction loop),
  * the Supabase service layer (saveFMCSARegisterEntries,
    fetchFMCSARegisterEntries).

Strings are modelled as List Char.  JavaScript regular-expression matching
for the one pattern used by the code,
  ((?:MC|FF|MX|MX-MC)-\d+)\s+([\s\S]*?)\s+(\d{2}\/\d{2}\/\d{4})  (global),
is embedded operationally, following the backtracking order of the JS
engine: alternatives tried left to right, greedy quantifiers prefer the
longest match and give back only when the continuation fails, the lazy
body capture prefers the shortest match, and the global scan resumes at
the end of the previous match, advancing one character when no match
starts at the current position.
-/

/-- The non-breaking-space character U+00A0 (the target of the first
replace in cleanText). -/
def nbsp : Char := Char.ofNat 160

/-- The JavaScript character class backslash-s (WhiteSpace plus
LineTerminator): tab through carriage return, space, U+00A0, U+1680,
U+2000 to U+200A, U+2028, U+2029, U+202F, U+205F, U+3000 and U+FEFF.
The same set underlies String.prototype.trim. -/
def isJsWS (c : Char) : Bool :=
  let n := c.toNat
  (9 ≤ n && n ≤ 13) || n == 32 || n == 160 || n == 0x1680 ||
  (0x2000 ≤ n && n ≤ 0x200a) || n == 0x2028 || n == 0x2029 ||
  n == 0x202f || n == 0x205f || n == 0x3000 || n == 0xfeff

/-- The JavaScript character class backslash-d: the ASCII digits. -/
def isDigitCh (c : Char) : Bool :=
  48 ≤ c.toNat && c.toNat ≤ 57

/-- ASCII case mapping of one character; models JS toUpperCase on the
ASCII texts this pipeline handles. -/
def jsUpperChar (c : Char) : Char :=
  if 97 ≤ c.toNat && c.toNat ≤ 122 then Char.ofNat (c.toNat - 32) else c

/-- Model of s.toUpperCase() on List Char. -/
def jsToUpperList (l : List Char) : List Char :=
  l.map jsUpperChar

/-- Model of text.replace(backslash-u00a0 global, a space): every
non-breaking space becomes an ordinary space. -/
def replaceNbsp (l : List Char) : List Char :=
  l.map (fun c => if c == nbsp then ' ' else c)

/-- Worker for collapseWS.  The flag records whether the previous input
character was whitespace: a whitespace run emits one space at its first
character and drops the rest, which is exactly
text.replace(whitespace-run global, a space). -/
def collapseAux : Bool → List Char → List Char
  | _, [] => []
  | prevWs, c :: rest =>
    if isJsWS c then
      if prevWs then collapseAux true rest
      else ' ' :: collapseAux true rest
    else c :: collapseAux false rest

/-- Model of text.replace(whitespace-run global, a space): each maximal
run of JS whitespace is replaced by a single space. -/
def collapseWS (l : List Char) : List Char :=
  collapseAux false l

/-- Model of String.prototype.trim: strip JS whitespace from both ends. -/
def trimWS (l : List Char) : List Char :=
  ((l.dropWhile isJsWS).reverse.dropWhile isJsWS).reverse

/-- The cleanText helper of the backend:
text.replace(nbsp global, space).replace(whitespace-run global, space).trim().
The falsy guard (null, undefined, empty string all yield the empty string)
agrees with this pipeline on every actual string, so strings suffice. -/
def cleanText (l : List Char) : List Char :=
  trimWS (collapseWS (replaceNbsp l))

/-- The per-match title cleaning rawInfo.replace(whitespace-run global,
a space).trim() used inside the extraction loop (no nbsp step there). -/
def collapseTrim (l : List Char) : List Char :=
  trimWS (collapseWS l)

/-- Substring occurrence, the model of String.prototype.includes. -/
def containsSub : List Char → List Char → Bool
  | h, n => n.isPrefixOf h ||
      match h with
      | [] => false
      | _ :: t => containsSub t n

/-- Match a literal character sequence at the head of the input,
returning the remainder on success. -/
def matchLit : List Char → List Char → Option (List Char)
  | [], l => some l
  | _ :: _, [] => none
  | p :: ps, c :: cs => if c == p then matchLit ps cs else none

/-- Match the date token of the pattern, two digits, slash, two digits,
slash, four digits, at the head of the input; returns the ten matched
characters and the remainder. -/
def matchDate : List Char → Option (List Char × List Char)
  | d1 :: d2 :: s1 :: d3 :: d4 :: s2 :: y1 :: y2 :: y3 :: y4 :: rest =>
    if isDigitCh d1 && isDigitCh d2 && s1 == '/' && isDigitCh d3 &&
       isDigitCh d4 && s2 == '/' && isDigitCh y1 && isDigitCh y2 &&
       isDigitCh y3 && isDigitCh y4 then
      some ([d1, d2, s1, d3, d4, s2, y1, y2, y3, y4], rest)
    else none
  | _ => none

/-- One alternative of the docket alternation: the literal head, a dash,
then a maximal nonempty digit run (the digit quantifier is greedy, and
giving digits back can never help because the next pattern element is
whitespace, which no digit satisfies). -/
def matchDocketBranch (lit : List Char) (l : List Char) :
    Option (List Char × List Char) :=
  match matchLit lit l with
  | none => none
  | some r1 =>
    match r1 with
    | '-' :: r2 =>
      match r2.span isDigitCh with
      | (ds, r3) => if ds.isEmpty then none else some (lit ++ '-' :: ds, r3)
    | _ => none

/-- The docket token (?:MC|FF|MX|MX-MC)-digits at the current position.
Alternatives are tried in source order.  Backtracking from a later
pattern element into this alternation cannot change the outcome: at one
position at most one alternative extends to dash-digits (MX versus MX-MC
disagree on whether the character after the first dash is a digit), so
the first alternative that extends is the JS engine's choice. -/
def matchDocket (l : List Char) : Option (List Char × List Char) :=
  (matchDocketBranch ['M', 'C'] l).orElse fun _ =>
  (matchDocketBranch ['F', 'F'] l).orElse fun _ =>
  (matchDocketBranch ['M', 'X'] l).orElse fun _ =>
  (matchDocketBranch ['M', 'X', '-', 'M', 'C'] l)

/-- Lazy body search: grow the body one character at a time (shortest
first); the body ends at the first position followed by a nonempty
whitespace run whose end starts the date token.  Within the final
whitespace-plus-date, only the maximal whitespace run can precede the
date, because a shorter greedy run would leave a whitespace character
where the date's first digit must match.  The accumulator holds the body
read so far, reversed. -/
def findBodyAux : List Char → List Char → Option (List Char × List Char × List Char)
  | acc, rest =>
    match (match rest.span isJsWS with
           | (ws, r2) => if ws.isEmpty then none else matchDate r2) with
    | some (d, r3) => some (acc.reverse, d, r3)
    | none =>
      match rest with
      | [] => none
      | c :: r => findBodyAux (c :: acc) r

/-- Backtracking of the first (greedy) whitespace quantifier after the
docket token: the argument is the reversed maximal whitespace run; each
step first tries the lazy body starting after the run prefix kept so far
and, on failure, gives the run's last character back to the body region.
An empty run means the quantifier cannot take at least one character and
the whole match fails. -/
def tryWvAux : List Char → List Char → Option (List Char × List Char × List Char)
  | [], _ => none
  | c :: runRevRest, after =>
    match findBodyAux [] after with
    | some r => some r
    | none => tryWvAux runRevRest (c :: after)

/-- Match whitespace, lazy body, whitespace, date after the docket token,
in engine backtracking order; returns (body capture, date capture,
remainder after the match). -/
def tailMatch (rest : List Char) : Option (List Char × List Char × List Char) :=
  match rest.span isJsWS with
  | (ws, afterWs) => tryWvAux ws.reverse afterWs

/-- Attempt the full pattern at the current position; returns the three
captures (docket, raw body, date) and the remainder after the match. -/
def matchFrom (l : List Char) :
    Option ((List Char × List Char × List Char) × List Char) :=
  match matchDocket l with
  | none => none
  | some (tok, rest1) =>
    match tailMatch rest1 with
    | none => none
    | some (body, date, rest2) => some ((tok, body, date), rest2)

/-- One raw pattern match of the global scan: match.index plus the three
capture groups. -/
structure RawMatch where
  idx : Nat
  docket : List Char
  body : List Char
  date : List Char
deriving DecidableEq, Repr

/-- Global scan loop: at each position try the full pattern; on success
emit the match and resume at its end (every match is at least four
characters long, so the scan advances); on failure advance one
character.  The fuel starts at the text length, which bounds the number
of loop steps. -/
def scanAux : Nat → Nat → List Char → List RawMatch
  | 0, _, _ => []
  | _ + 1, _, [] => []
  | fuel + 1, pos, c :: rest =>
    match matchFrom (c :: rest) with
    | some ((tok, body, date), rest2) =>
      { idx := pos, docket := tok, body := body, date := date } ::
        scanAux fuel (pos + ((c :: rest).length - rest2.length)) rest2
    | none => scanAux fuel (pos + 1) rest

/-- All pattern matches of the normalized text, in scan order, the model
of the while (match = pattern.exec(rawText)) loop. -/
def scanMatches (text : List Char) : List RawMatch :=
  scanAux text.length 0 text

/-- One record of the extraction output, the object literal pushed by
the loop. -/
structure RegisterEntry where
  number : List Char
  title : List Char
  decided : List Char
  category : List Char
deriving DecidableEq, Repr

/-- The fixed category table, in declaration order (Object.entries
preserves the insertion order of these string keys). -/
def categoryKeywords : List (List Char × List (List Char)) :=
  [("NAME CHANGE".toList, ["NAME CHANGES".toList]),
   ("CERTIFICATE, PERMIT, LICENSE".toList,
      ["CERTIFICATES, PERMITS & LICENSES".toList]),
   ("CERTIFICATE OF REGISTRATION".toList,
      ["CERTIFICATES OF REGISTRATION".toList]),
   ("DISMISSAL".toList, ["DISMISSALS".toList]),
   ("WITHDRAWAL".toList, ["WITHDRAWAL OF APPLICATION".toList]),
   ("REVOCATION".toList, ["REVOCATIONS".toList]),
   ("TRANSFERS".toList, ["TRANSFERS".toList]),
   ("GRANT DECISION NOTICES".toList, ["GRANT DECISION NOTICES".toList])]

/-- The category loop of the handler: start from MISCELLANEOUS and walk
the table in declaration order, overwriting the category whenever any
keyword of the current row occurs in the context text. -/
def categoryOf (contextText : List Char) : List Char :=
  categoryKeywords.foldl
    (fun cat row =>
      if row.2.any (fun k => containsSub contextText k) then row.1 else cat)
    "MISCELLANEOUS".toList

/-- The context window rawText.substring(max(0, P - 1500), P); natural
subtraction supplies the max with zero. -/
def windowAt (text : List Char) (P : Nat) : List Char :=
  (text.take P).drop (P - 1500)

/-- Per-match processing of the loop body: clean the raw info capture,
skip the match when the cleaned title exceeds 500 characters, otherwise
build the entry with the category inferred from the upper-cased
1500-character window before match.index. -/
def entryOfMatch (text : List Char) (m : RawMatch) : Option RegisterEntry :=
  if (collapseTrim m.body).length > 500 then none
  else some
    { number := m.docket
      title := collapseTrim m.body
      decided := m.date
      category := categoryOf (jsToUpperList (windowAt text m.idx)) }

/-- The entries array as pushed by the while loop, before
deduplication. -/
def entriesScan (text : List Char) : List RegisterEntry :=
  (scanMatches text).filterMap (entryOfMatch text)

/-- The identity test of the dedup predicate: same number and same
title. -/
def keyEq (a b : RegisterEntry) : Bool :=
  a.number == b.number && a.title == b.title

/-- JS Array.prototype.filter with the element index, the shape of the
dedup call. -/
def filterWithIdx (p : Nat → RegisterEntry → Bool) :
    Nat → List RegisterEntry → List RegisterEntry
  | _, [] => []
  | i, x :: xs =>
    if p i x then x :: filterWithIdx p (i + 1) xs else filterWithIdx p (i + 1) xs

/-- The dedup step entries.filter((entry, index, self) => index ===
self.findIndex(e => e.number === entry.number && e.title ===
entry.title)). -/
def dedupJs (l : List RegisterEntry) : List RegisterEntry :=
  filterWithIdx (fun i entry => l.findIdx (fun e2 => keyEq e2 entry) == i) 0 l

/-- The uniqueEntries value returned by the handler. -/
def uniqueEntries (text : List Char) : List RegisterEntry :=
  dedupJs (entriesScan text)

/-- The observable part of the handler's HTTP response: status code,
success flag, error message, count (absent in the 400 body) and
entries. -/
structure RegisterResponse where
  status : Nat
  success : Bool
  error : Option (List Char)
  count : Option Nat
  entries : List RegisterEntry
deriving DecidableEq, Repr

/-- The error message of the 400 response of the backend handler. -/
def invalidResponseMsg : List Char :=
  "Invalid response from FMCSA. The page might not be available for this date.".toList

/-- The marker phrase required in the raw markup. -/
def fmcsaMarker : List Char := "FMCSA REGISTER".toList

/-- The marker gate response.data.toUpperCase().includes('FMCSA
REGISTER'). -/
def hasMarker (rawMarkup : List Char) : Bool :=
  containsSub (jsToUpperList rawMarkup) fmcsaMarker

/-- The handler after a successful fetch: the marker gate, then
cheerio's HTML-to-text flattening (an external collaborator, passed in
as textOf), then the scan, classification and dedup; responds 400 with
empty entries when the gate fails, 200 with the unique entries
otherwise. -/
def processRegister (rawMarkup : List Char) (textOf : List Char → List Char) :
    RegisterResponse :=
  if !hasMarker rawMarkup then
    { status := 400, success := false, error := some invalidResponseMsg,
      count := none, entries := [] }
  else
    let unique := uniqueEntries (textOf rawMarkup)
    { status := 200, success := true, error := none,
      count := some unique.length, entries := unique }

/-- The service-layer entry shape (FMCSARegisterEntry), restricted to
the fields the save path reads. -/
structure ServiceEntry where
  number : List Char
  title : List Char
  decided : List Char
  category : List Char
deriving DecidableEq, Repr

/-- One row prepared for upsert into the fmcsa_register table. -/
structure RegisterRow where
  number : List Char
  title : List Char
  decided : List Char
  category : List Char
  date_fetched : List Char
  created_at : List Char
  updated_at : List Char
deriving DecidableEq, Repr

/-- Row construction inside saveFMCSARegisterEntries; now stands for the
new Date().toISOString() timestamp. -/
def mkRow (e : ServiceEntry) (fetchDate now : List Char) : RegisterRow :=
  { number := e.number, title := e.title, decided := e.decided,
    category := e.category, date_fetched := fetchDate,
    created_at := now, updated_at := now }

/-- Result object of saveFMCSARegisterEntries. -/
structure SaveResult where
  success : Bool
  error : Option (List Char)
  count : Option Nat
deriving DecidableEq, Repr

/-- Model of saveFMCSARegisterEntries.  The entries argument is Option
to cover the null and undefined cases of the falsy guard; the storage
collaborator is the upsert function (returning the error message of a
failed upsert, or none on success; the catch branch surfaces a thrown
message the same way).  The second component of the result is the trace
of upsert calls performed, each with the records passed to it. -/
def saveFMCSARegisterEntries (entries : Option (List ServiceEntry))
    (fetchDate now : List Char)
    (upsert : List RegisterRow → Option (List Char)) :
    SaveResult × List (List RegisterRow) :=
  match entries with
  | none => ({ success := true, error := none, count := some 0 }, [])
  | some es =>
    if es.length == 0 then
      ({ success := true, error := none, count := some 0 }, [])
    else
      let records := es.map (fun e => mkRow e fetchDate now)
      match upsert records with
      | some msg => ({ success := false, error := some msg, count := none }, [records])
      | none =>
        ({ success := true, error := none, count := some records.length }, [records])

/-- Model of the result handling of fetchFMCSARegisterEntries.  The
built query (filters, ordering, limit) belongs to the storage
collaborator; its outcome is either an error with a message (also
covering a thrown exception, the catch branch) or data rows (possibly
null).  On error the function logs and returns the empty list; on
success it returns data or the empty list when data is null. -/
def fetchFMCSARegisterEntries
    (queryResult : Except (List Char) (Option (List RegisterRow))) :
    List RegisterRow :=
  match queryResult with
  | Except.error _ => []
  | Except.ok data => data.getD []

/-- Modelled from the spec (section 4.2, category inference): the
category assigned to a window is the one of the last row, in the fixed
declared order of the table, any of whose keywords occurs in the window,
and MISCELLANEOUS when no row matches.  Stated with filter and getLast?
to compare against the loop in the source. -/
def specCategory (contextText : List Char) : List Char :=
  match (categoryKeywords.filter
      (fun row => row.2.any (fun k => containsSub contextText k))).getLast? with
  | some row => row.1
  | none => "MISCELLANEOUS".toList

/-- Modelled from the spec (section 4.2, deduplication): keep, for each
distinct (number, title) pair, only the first occurrence in scan order,
dropping every later duplicate; the order of the result is the order of
first occurrence. -/
def specDedup : List RegisterEntry → List RegisterEntry
  | [] => []
  | e :: rest => e :: specDedup (rest.filter (fun x => !keyEq e x))
termination_by l => l.length
decreasing_by
  exact Nat.lt_succ_of_le (List.length_filter_le _ _)

/-- C1: on the text MC-123456 Acme Trucking Co 01/15/2024, with no
category keyword in the 1500-character window before the match, the
extraction produces exactly one entry, number MC-123456, title Acme
Trucking Co, decided 01/15/2024, category MISCELLANEOUS. -/
theorem extract_scenarioA :
    uniqueEntries "MC-123456 Acme Trucking Co 01/15/2024".toList =
      [{ number := "MC-123456".toList, title := "Acme Trucking Co".toList,
         decided := "01/15/2024".toList,
         category := "MISCELLANEOUS".toList }] := by
  decide

/-- C6: on the text MC-1 AAA 01/01/2020 MC-2 BBB 02/02/2020 the
extraction produces exactly the two entries (MC-1, AAA, 01/01/2020) and
(MC-2, BBB, 02/02/2020) in that order: the lazy body capture stops at
the nearest following date token, so the first body does not swallow the
second docket token. -/
theorem extract_scenarioF :
    uniqueEntries "MC-1 AAA 01/01/2020 MC-2 BBB 02/02/2020".toList =
      [{ number := "MC-1".toList, title := "AAA".toList,
         decided := "01/01/2020".toList, category := "MISCELLANEOUS".toList },
       { number := "MC-2".toList, title := "BBB".toList,
         decided := "02/02/2020".toList,
         category := "MISCELLANEOUS".toList }] := by
  decide

/-- C7: all four docket alternatives are recognized, and for the MX-MC
input the extracted number is the full token MX-MC-123456, not a
truncation to MX or MC, although MX is listed before MX-MC in the
alternation (the MX alternative fails to continue at the dash, and the
engine backtracks into the MX-MC alternative). -/
theorem docket_prefixes_recognized :
    (uniqueEntries "MC-1 A 01/01/2020".toList).map RegisterEntry.number =
      ["MC-1".toList] ∧
    (uniqueEntries "FF-22 B 01/01/2020".toList).map RegisterEntry.number =
      ["FF-22".toList] ∧
    (uniqueEntries "MX-333 C 01/01/2020".toList).map RegisterEntry.number =
      ["MX-333".toList] ∧
    uniqueEntries "MX-MC-123456 Foo Corp 01/01/2020".toList =
      [{ number := "MX-MC-123456".toList, title := "Foo Corp".toList,
         decided := "01/01/2020".toList,
         category := "MISCELLANEOUS".toList }] := by
  refine ⟨by decide, by decide, by decide, by decide⟩

/-- C5: when the raw markup lacks the marker phrase (checked after
upper-casing, hence case-insensitively) the handler answers 400 with the
validation error message and zero entries, without reaching extraction;
when the marker is present the gate passes and the handler answers 200
with the extracted unique entries. -/
theorem marker_gate (rawMarkup : List Char) (textOf : List Char → List Char) :
    (hasMarker rawMarkup = false →
      processRegister rawMarkup textOf =
        { status := 400, success := false, error := some invalidResponseMsg,
          count := none, entries := [] }) ∧
    (hasMarker rawMarkup = true →
      processRegister rawMarkup textOf =
        { status := 200, success := true, error := none,
          count := some (uniqueEntries (textOf rawMarkup)).length,
          entries := uniqueEntries (textOf rawMarkup) }) := by
  constructor <;> intro h <;> simp [processRegister, h]

/-- Witness for marker_gate: a markup without the marker is rejected
with zero entries; a markup carrying the marker in lower case passes the
gate. -/
theorem marker_gate_witness :
    processRegister "no marker here".toList (fun l => l) =
      { status := 400, success := false, error := some invalidResponseMsg,
        count := none, entries := [] } ∧
    processRegister "the fmcsa register 20-FEB-26".toList (fun l => l) =
      { status := 200, success := true, error := none,
        count := some (uniqueEntries ((fun l => l) "the fmcsa register 20-FEB-26".toList)).length,
        entries := uniqueEntries ((fun l => l) "the fmcsa register 20-FEB-26".toList) } :=
  ⟨(marker_gate "no marker here".toList (fun l => l)).1 (by decide),
   (marker_gate "the fmcsa register 20-FEB-26".toList (fun l => l)).2 (by decide)⟩

/-- C8 counterexample: a failing query in fetchFMCSARegisterEntries is
not surfaced; the caller receives the empty list, exactly what a
successful query finding no rows returns. -/
theorem fetch_error_swallowed :
    fetchFMCSARegisterEntries (Except.error "connection refused".toList) =
      fetchFMCSARegisterEntries (Except.ok (some [])) ∧
    fetchFMCSARegisterEntries (Except.error "connection refused".toList) = [] :=
  ⟨rfl, rfl⟩

/-- C8 amended: upsert failures in saveFMCSARegisterEntries are surfaced
to the caller as success false with the collaborator's message, but
query failures in fetchFMCSARegisterEntries are swallowed: the function
returns the empty list, indistinguishable from finding no rows. -/
theorem persistence_error_surfacing (entries : List ServiceEntry)
    (fetchDate now msg err : List Char) (h : entries ≠ []) :
    (saveFMCSARegisterEntries (some entries) fetchDate now
        (fun _ => some msg)).1 =
      { success := false, error := some msg, count := none } ∧
    fetchFMCSARegisterEntries (Except.error err) = [] := by
  refine ⟨?_, rfl⟩
  cases entries with
  | nil => exact absurd rfl h
  | cons a t => simp [saveFMCSARegisterEntries]

/-- Witness for persistence_error_surfacing at a concrete entry list and
message. -/
theorem persistence_error_surfacing_witness :
    (saveFMCSARegisterEntries
        (some [{ number := "MC-1".toList, title := "A".toList,
                 decided := "01/01/2020".toList,
                 category := "MISCELLANEOUS".toList }])
        "2024-01-15".toList "2024-01-15T00:00:00.000Z".toList
        (fun _ => some "upsert failed".toList)).1 =
      { success := false, error := some "upsert failed".toList, count := none } ∧
    fetchFMCSARegisterEntries (Except.error "query failed".toList) = [] :=
  persistence_error_surfacing
    [{ number := "MC-1".toList, title := "A".toList,
       decided := "01/01/2020".toList, category := "MISCELLANEOUS".toList }]
    "2024-01-15".toList "2024-01-15T00:00:00.000Z".toList
    "upsert failed".toList "query failed".toList (by decide)

/-- C10: a null, undefined or empty entries argument makes
saveFMCSARegisterEntries return success with count zero at once, and the
trace of storage calls is empty, whatever the storage collaborator
would have answered. -/
theorem save_empty_short_circuit (fetchDate now : List Char)
    (upsert : List RegisterRow → Option (List Char)) :
    saveFMCSARegisterEntries none fetchDate now upsert =
      ({ success := true, error := none, count := some 0 }, []) ∧
    saveFMCSARegisterEntries (some []) fetchDate now upsert =
      ({ success := true, error := none, count := some 0 }, []) :=
  ⟨rfl, rfl⟩

/-- The category loop keeps the label of the last table row whose
predicate holds, falling back to the initial value. -/
theorem foldl_pick_last (L : List (List Char × List (List Char)))
    (p : List Char × List (List Char) → Bool) (init : List Char) :
    L.foldl (fun cat row => if p row then row.1 else cat) init =
      (match (L.filter p).getLast? with
       | some row => row.1
       | none => init) := by
  induction L generalizing init with
  | nil => rfl
  | cons r rest ih =>
    by_cases hp : p r
    · rw [List.foldl_cons, if_pos hp, ih, List.filter_cons, if_pos hp]
      cases hfr : rest.filter p with
      | nil => rfl
      | cons x xs =>
        cases hlast : (x :: xs).getLast? with
        | none => exact absurd (List.getLast?_eq_none_iff.mp hlast) (by simp)
        | some y => rw [List.getLast?_cons_cons, hlast]
    · rw [List.foldl_cons, if_neg hp, ih, List.filter_cons, if_neg hp]

/-- The loop of the source equals the spec's description of the category
assignment. -/
theorem categoryOf_eq_specCategory (ctx : List Char) :
    categoryOf ctx = specCategory ctx :=
  foldl_pick_last categoryKeywords _ _

/-- C2: for every match of the scan, the category of the entry built
from it is the one computed from the upper-cased window of the text from
max(0, idx - 1500) to idx: the last category in the declared order of
the table with a keyword occurring in that window, MISCELLANEOUS when
none occurs. -/
theorem category_from_window (text : List Char) (m : RawMatch)
    (e : RegisterEntry) (_hm : m ∈ scanMatches text)
    (he : entryOfMatch text m = some e) :
    e.category = specCategory (jsToUpperList (windowAt text m.idx)) := by
  unfold entryOfMatch at he
  by_cases hlen : (collapseTrim m.body).length > 500
  · rw [if_pos hlen] at he
    exact absurd he (by simp)
  · rw [if_neg hlen] at he
    injection he with he2
    rw [← he2]
    dsimp only
    exact categoryOf_eq_specCategory _

/-- Witness for category_from_window at the scenario-A text and its
single match. -/
theorem category_from_window_witness :
    ({ number := "MC-123456".toList, title := "Acme Trucking Co".toList,
       decided := "01/15/2024".toList,
       category := "MISCELLANEOUS".toList } : RegisterEntry).category =
      specCategory (jsToUpperList
        (windowAt "MC-123456 Acme Trucking Co 01/15/2024".toList 0)) :=
  category_from_window "MC-123456 Acme Trucking Co 01/15/2024".toList
    { idx := 0, docket := "MC-123456".toList,
      body := "Acme Trucking Co".toList, date := "01/15/2024".toList }
    _ (by decide) (by decide)

/-- Elements produced by the indexed filter come from the input list. -/
theorem mem_of_mem_filterWithIdx (p : Nat → RegisterEntry → Bool)
    (n : Nat) (l : List RegisterEntry) (x : RegisterEntry)
    (hx : x ∈ filterWithIdx p n l) : x ∈ l := by
  induction l generalizing n with
  | nil => exact absurd hx (List.not_mem_nil x)
  | cons a t ih =>
    unfold filterWithIdx at hx
    by_cases hp : p n a
    · rw [if_pos hp] at hx
      cases hx with
      | head => exact List.mem_cons_self _ _
      | tail _ h => exact List.mem_cons_of_mem a (ih _ h)
    · rw [if_neg hp] at hx
      exact List.mem_cons_of_mem a (ih _ hx)

/-- An entry emitted for a match has the cleaned body as title, and the
loop skips the match when that title exceeds 500 characters. -/
theorem entryOfMatch_title_le (text : List Char) (m : RawMatch)
    (e : RegisterEntry) (he : entryOfMatch text m = some e) :
    e.title.length ≤ 500 := by
  unfold entryOfMatch at he
  by_cases hlen : (collapseTrim m.body).length > 500
  · rw [if_pos hlen] at he
    exact absurd he (by simp)
  · rw [if_neg hlen] at he
    injection he with he2
    rw [← he2]
    dsimp only
    exact Nat.le_of_not_lt hlen

/-- C4: no entry of the final output has a title longer than 500
characters, and a match whose cleaned body exceeds 500 characters is
dropped entirely (the loop emits nothing for it, rather than truncating
or erroring). -/
theorem title_length_bound :
    (∀ (text : List Char) (e : RegisterEntry),
      e ∈ uniqueEntries text → e.title.length ≤ 500) ∧
    (∀ (text : List Char) (m : RawMatch),
      500 < (collapseTrim m.body).length → entryOfMatch text m = none) := by
  constructor
  · intro text e he
    have h1 : e ∈ entriesScan text :=
      mem_of_mem_filterWithIdx _ _ _ _ he
    obtain ⟨m, _, hm⟩ := List.mem_filterMap.mp h1
    exact entryOfMatch_title_le text m e hm
  · intro text m hlen
    unfold entryOfMatch
    rw [if_pos hlen]

set_option maxRecDepth 4000 in
/-- Witness for title_length_bound: the scenario-A entry respects the
bound, and a 501-character body is dropped. -/
theorem title_length_bound_witness :
    ({ number := "MC-123456".toList, title := "Acme Trucking Co".toList,
       decided := "01/15/2024".toList,
       category := "MISCELLANEOUS".toList } : RegisterEntry).title.length ≤ 500 ∧
    entryOfMatch []
      { idx := 0, docket := "MC-1".toList,
        body := (List.replicate 501 'a'), date := "01/01/2020".toList } = none :=
  ⟨title_length_bound.1 "MC-123456 Acme Trucking Co 01/15/2024".toList _ (by decide),
   title_length_bound.2 [] _ (by decide)⟩

/-- keyEq is reflexive. -/
theorem keyEq_refl (a : RegisterEntry) : keyEq a a = true := by
  simp [keyEq]

/-- keyEq is transitive. -/
theorem keyEq_trans {a b c : RegisterEntry} (h1 : keyEq a b = true)
    (h2 : keyEq b c = true) : keyEq a c = true := by
  simp only [keyEq, Bool.and_eq_true, beq_iff_eq] at h1 h2 ⊢
  exact ⟨h1.1.trans h2.1, h1.2.trans h2.2⟩

/-- Nat equality tests agree on successors. -/
theorem beq_succ_succ (a i : Nat) : (a + 1 == i + 1) = (a == i) := by
  by_cases h : a = i
  · subst h
    simp
  · have h1 : (a == i) = false := beq_eq_false_iff_ne.mpr h
    have h2 : (a + 1 == i + 1) = false := beq_eq_false_iff_ne.mpr (by omega)
    rw [h1, h2]

/-- Shifting the running index of the indexed filter into the
predicate. -/
theorem filterWithIdx_shift (p : Nat → RegisterEntry → Bool) (n : Nat)
    (l : List RegisterEntry) :
    filterWithIdx p (n + 1) l = filterWithIdx (fun i x => p (i + 1) x) n l := by
  induction l generalizing n with
  | nil => rfl
  | cons a t ih =>
    unfold filterWithIdx
    by_cases hp : p (n + 1) a
    · rw [if_pos hp, if_pos hp, ih]
    · rw [if_neg hp, if_neg hp, ih]

/-- The indexed filter only looks at the predicate on the list's own
elements. -/
theorem filterWithIdx_congr (p q : Nat → RegisterEntry → Bool) (n : Nat)
    (l : List RegisterEntry) (h : ∀ i x, x ∈ l → p i x = q i x) :
    filterWithIdx p n l = filterWithIdx q n l := by
  induction l generalizing n with
  | nil => rfl
  | cons a t ih =>
    unfold filterWithIdx
    have ha : p n a = q n a := h n a (List.mem_cons_self _ _)
    have ht : ∀ i x, x ∈ t → p i x = q i x :=
      fun i x hx => h i x (List.mem_cons_of_mem _ hx)
    by_cases hp : q n a
    · rw [ha, if_pos hp, if_pos hp, ih _ ht]
    · rw [ha, if_neg hp, if_neg hp, ih _ ht]

/-- Generalized equivalence of the findIndex-based filter with the
first-occurrence recursion: excl carries the keys already claimed by
earlier elements of the original list. -/
theorem dedup_general (rest : List RegisterEntry) :
    ∀ excl : List RegisterEntry,
    filterWithIdx
      (fun i x => excl.all (fun y => !keyEq y x) &&
        (rest.findIdx (fun e2 => keyEq e2 x) == i)) 0 rest =
      specDedup (rest.filter (fun x => excl.all (fun y => !keyEq y x))) := by
  induction rest with
  | nil =>
    intro excl
    simp [filterWithIdx, specDedup]
  | cons r rest ih =>
    intro excl
    have hfind0 : (r :: rest).findIdx (fun e2 => keyEq e2 r) = 0 := by
      rw [List.findIdx_cons, keyEq_refl, cond_true]
    by_cases hr : excl.all (fun y => !keyEq y r) = true
    · have hstep : ∀ i x, x ∈ rest →
          (excl.all (fun y => !keyEq y x) &&
            ((r :: rest).findIdx (fun e2 => keyEq e2 x) == i + 1)) =
          ((r :: excl).all (fun y => !keyEq y x) &&
            (rest.findIdx (fun e2 => keyEq e2 x) == i)) := by
        intro i x _
        rw [List.findIdx_cons, List.all_cons]
        by_cases hk : keyEq r x = true
        · rw [hk, cond_true]
          simp
        · rw [Bool.not_eq_true] at hk
          rw [hk, cond_false, beq_succ_succ]
          simp
      unfold filterWithIdx
      rw [if_pos (by rw [hfind0, hr]; rfl)]
      rw [filterWithIdx_shift, filterWithIdx_congr _ _ 0 rest hstep,
        ih (r :: excl), List.filter_cons, if_pos hr, specDedup]
      refine congrArg (fun t => r :: specDedup t) ?_
      rw [List.filter_filter]
      apply List.filter_congr
      intro x _
      simp [List.all_cons]
    · have hyex : ∃ y ∈ excl, keyEq y r = true := by
        by_contra hall
        push_neg at hall
        apply hr
        rw [List.all_eq_true]
        intro y hymem
        have h1 : keyEq y r = false := Bool.eq_false_iff.mpr (hall y hymem)
        rw [Bool.not_eq_true', h1]
      have hstep : ∀ i x, x ∈ rest →
          (excl.all (fun y => !keyEq y x) &&
            ((r :: rest).findIdx (fun e2 => keyEq e2 x) == i + 1)) =
          (excl.all (fun y => !keyEq y x) &&
            (rest.findIdx (fun e2 => keyEq e2 x) == i)) := by
        intro i x _
        rw [List.findIdx_cons]
        by_cases hex : excl.all (fun y => !keyEq y x) = true
        · have hk : keyEq r x = false := by
            by_contra hk1
            rw [Bool.not_eq_false] at hk1
            obtain ⟨y, hy, hyr⟩ := hyex
            have hyx : keyEq y x = true := keyEq_trans hyr hk1
            have hxall := List.all_eq_true.mp hex y hy
            rw [Bool.not_eq_true', hyx] at hxall
            exact absurd hxall (by decide)
          rw [hk, cond_false, beq_succ_succ]
        · rw [Bool.not_eq_true] at hex
          rw [hex]
          simp
      have hrfalse : excl.all (fun y => !keyEq y r) = false :=
        Bool.eq_false_iff.mpr hr
      unfold filterWithIdx
      rw [if_neg (by rw [hfind0, hrfalse]; simp)]
      rw [filterWithIdx_shift, filterWithIdx_congr _ _ 0 rest hstep, ih excl,
        List.filter_cons, if_neg (by rw [hrfalse]; simp)]

/-- The findIndex-based dedup of the source equals the spec's
first-occurrence dedup. -/
theorem dedupJs_eq_specDedup (l : List RegisterEntry) :
    dedupJs l = specDedup l := by
  unfold dedupJs
  rw [filterWithIdx_congr _
    (fun i x => List.all [] (fun y => !keyEq y x) &&
      (l.findIdx (fun e2 => keyEq e2 x) == i)) 0 l (by intro i x _; simp),
    dedup_general l []]
  have hf : l.filter (fun x => List.all [] (fun y => !keyEq y x)) = l :=
    List.filter_true l
  rw [hf]

/-- Elements of the first-occurrence dedup come from the input list. -/
theorem mem_specDedup : ∀ (l : List RegisterEntry) (x : RegisterEntry),
    x ∈ specDedup l → x ∈ l := by
  intro l
  induction l using specDedup.induct with
  | case1 =>
    intro x h
    rw [specDedup] at h
    exact absurd h (List.not_mem_nil x)
  | case2 e rest ih =>
    intro x h
    rw [specDedup] at h
    cases h with
    | head => exact List.mem_cons_self _ _
    | tail _ h2 =>
      exact List.mem_cons_of_mem _ (List.mem_of_mem_filter (ih x h2))

/-- The first-occurrence dedup output has no two elements sharing both
number and title. -/
theorem pairwise_specDedup : ∀ l : List RegisterEntry,
    List.Pairwise (fun a b => ¬(a.number = b.number ∧ a.title = b.title))
      (specDedup l) := by
  intro l
  induction l using specDedup.induct with
  | case1 =>
    rw [specDedup]
    exact List.Pairwise.nil
  | case2 e rest ih =>
    rw [specDedup]
    constructor
    · intro b hb
      have hb2 : b ∈ List.filter (fun x => !keyEq e x) rest :=
        mem_specDedup _ b hb
      have hbf : keyEq e b = false := by
        have h0 := @List.of_mem_filter RegisterEntry (fun x => !keyEq e x) b rest hb2
        simpa using h0
      intro hcontra
      have hkeq : keyEq e b = true := by
        simp only [keyEq, Bool.and_eq_true, beq_iff_eq]
        exact hcontra
      rw [hkeq] at hbf
      exact absurd hbf (by decide)
    · exact ih

/-- C3: deduplication keeps, for each distinct (number, title) pair,
exactly the first occurrence in scan order, in first-occurrence order;
consequently no two entries of one extraction run share both number and
title. -/
theorem dedup_first_occurrence :
    (∀ l : List RegisterEntry, dedupJs l = specDedup l) ∧
    (∀ text : List Char,
      List.Pairwise (fun a b => ¬(a.number = b.number ∧ a.title = b.title))
        (uniqueEntries text)) := by
  constructor
  · exact dedupJs_eq_specDedup
  · intro text
    unfold uniqueEntries
    rw [dedupJs_eq_specDedup]
    exact pairwise_specDedup _

/-- Adjacent-character relation: no two neighbouring whitespace
characters. -/
def noTwoWS (a b : Char) : Prop :=
  ¬(isJsWS a = true ∧ isJsWS b = true)

/-- Every whitespace character the collapser emits is the plain space. -/
theorem collapseAux_ws_space : ∀ (l : List Char) (b : Bool) (c : Char),
    c ∈ collapseAux b l → isJsWS c = true → c = ' ' := by
  intro l
  induction l with
  | nil => intro b c hc _; rw [collapseAux] at hc; exact absurd hc (List.not_mem_nil c)
  | cons d rest ih =>
    intro b c hc hwc
    rw [collapseAux] at hc
    by_cases hd : isJsWS d = true
    · rw [if_pos hd] at hc
      cases b with
      | true => exact ih true c hc hwc
      | false =>
        cases hc with
        | head => rfl
        | tail _ h2 => exact ih true c h2 hwc
    · rw [if_neg hd] at hc
      cases hc with
      | head => exact absurd hwc hd
      | tail _ h2 => exact ih false c h2 hwc

/-- After a space was just emitted, the next emitted character is not
whitespace. -/
theorem collapseAux_true_head : ∀ (l : List Char) (c : Char),
    (collapseAux true l).head? = some c → isJsWS c = false := by
  intro l
  induction l with
  | nil => intro c hc; exact absurd hc (by rw [collapseAux]; simp)
  | cons d rest ih =>
    intro c hc
    rw [collapseAux] at hc
    by_cases hd : isJsWS d = true
    · rw [if_pos hd] at hc
      exact ih c hc
    · rw [if_neg hd] at hc
      rw [List.head?_cons, Option.some.injEq] at hc
      rw [← hc]
      exact Bool.eq_false_iff.mpr hd

/-- The collapser never emits two adjacent whitespace characters. -/
theorem collapseAux_chain : ∀ (l : List Char) (b : Bool),
    List.Chain' noTwoWS (collapseAux b l) := by
  intro l
  induction l with
  | nil => intro b; rw [collapseAux]; exact List.chain'_nil
  | cons d rest ih =>
    intro b
    rw [collapseAux]
    by_cases hd : isJsWS d = true
    · rw [if_pos hd]
      cases b with
      | true => exact ih true
      | false =>
        rw [if_neg (by decide)]
        rw [List.chain'_cons']
        refine ⟨?_, ih true⟩
        intro y hy
        have : isJsWS y = false := collapseAux_true_head rest y hy
        intro hcontra
        rw [this] at hcontra
        exact absurd hcontra.2 (by decide)
    · rw [if_neg hd]
      rw [List.chain'_cons']
      refine ⟨?_, ih false⟩
      intro y _
      intro hcontra
      exact absurd hcontra.1 hd

/-- The collapser is the identity on a list whose whitespace characters
are single spaces with no two adjacent. -/
theorem collapseAux_id : ∀ l : List Char,
    (∀ c ∈ l, isJsWS c = true → c = ' ') →
    List.Chain' noTwoWS l →
    (collapseAux false l = l ∧
     ((∀ c, l.head? = some c → isJsWS c = false) → collapseAux true l = l)) := by
  intro l
  induction l with
  | nil => intro _ _; exact ⟨rfl, fun _ => rfl⟩
  | cons d rest ih =>
    intro hws hchain
    rw [List.chain'_cons'] at hchain
    obtain ⟨hhead, hchain'⟩ := hchain
    have hwsrest : ∀ c ∈ rest, isJsWS c = true → c = ' ' :=
      fun c hc => hws c (List.mem_cons_of_mem _ hc)
    have ihr := ih hwsrest hchain'
    by_cases hd : isJsWS d = true
    · have hdspace : d = ' ' := hws d (List.mem_cons_self _ _) hd
      have hresthead : ∀ c, rest.head? = some c → isJsWS c = false := by
        intro c hc
        have hr := hhead c hc
        unfold noTwoWS at hr
        by_contra hcc
        rw [Bool.not_eq_false] at hcc
        exact hr ⟨hd, hcc⟩
      constructor
      · rw [collapseAux, if_pos hd, if_neg (by decide), ihr.2 hresthead, hdspace]
      · intro hhd
        have := hhd d (List.head?_cons)
        rw [hd] at this
        exact absurd this (by decide)
    · constructor
      · rw [collapseAux, if_neg hd, ihr.1]
      · intro _
        rw [collapseAux, if_neg hd, ihr.1]

/-- dropWhile preserves the no-adjacent-whitespace chain. -/
theorem chain_dropWhile (p : Char → Bool) : ∀ l : List Char,
    List.Chain' noTwoWS l → List.Chain' noTwoWS (l.dropWhile p) := by
  intro l
  induction l with
  | nil => intro h; exact h
  | cons a t ih =>
    intro h
    rw [List.dropWhile_cons]
    by_cases hp : p a = true
    · rw [if_pos hp]
      exact ih (List.Chain'.tail h)
    · rw [if_neg hp]
      exact h

/-- Reversal preserves the no-adjacent-whitespace chain. -/
theorem chain_reverse_noTwoWS (l : List Char)
    (h : List.Chain' noTwoWS l) : List.Chain' noTwoWS l.reverse := by
  rw [List.chain'_reverse]
  refine h.imp ?_
  intro a b hab hcontra
  exact hab ⟨hcontra.2, hcontra.1⟩

/-- The head of a dropWhile result fails the dropped predicate. -/
theorem dropWhile_head_false (p : Char → Bool) : ∀ (l : List Char) (c : Char),
    (l.dropWhile p).head? = some c → p c = false := by
  intro l
  induction l with
  | nil => intro c hc; exact absurd hc (by simp)
  | cons a t ih =>
    intro c hc
    rw [List.dropWhile_cons] at hc
    by_cases hp : p a = true
    · rw [if_pos hp] at hc
      exact ih c hc
    · rw [if_neg hp] at hc
      rw [List.head?_cons, Option.some.injEq] at hc
      rw [← hc]
      exact Bool.eq_false_iff.mpr hp

/-- dropWhile keeps the last element when its result is nonempty. -/
theorem dropWhile_getLast (p : Char → Bool) : ∀ l : List Char,
    l.dropWhile p = [] ∨ (l.dropWhile p).getLast? = l.getLast? := by
  intro l
  induction l with
  | nil => exact Or.inl rfl
  | cons a t ih =>
    rw [List.dropWhile_cons]
    by_cases hp : p a = true
    · rw [if_pos hp]
      cases ih with
      | inl h =>
        exact Or.inl h
      | inr h =>
        cases t with
        | nil => exact Or.inl (by simp)
        | cons b u =>
          refine Or.inr ?_
          rw [h, List.getLast?_cons_cons]
    · rw [if_neg hp]
      exact Or.inr rfl

/-- dropWhile is the identity when the head fails the predicate. -/
theorem dropWhile_head_eq_self (p : Char → Bool) (l : List Char)
    (h : ∀ c, l.head? = some c → p c = false) : l.dropWhile p = l := by
  cases l with
  | nil => rfl
  | cons a t =>
    rw [List.dropWhile_cons, if_neg ?_]
    rw [h a List.head?_cons]
    exact Bool.false_ne_true

/-- Characters of the trimmed list come from the original list. -/
theorem mem_trimWS (l : List Char) (c : Char) (hc : c ∈ trimWS l) :
    c ∈ l := by
  unfold trimWS at hc
  rw [List.mem_reverse] at hc
  have h2 : c ∈ (l.dropWhile isJsWS).reverse :=
    List.Sublist.mem hc (List.dropWhile_sublist _)
  rw [List.mem_reverse] at h2
  exact List.Sublist.mem h2 (List.dropWhile_sublist _)

/-- Trimming preserves the no-adjacent-whitespace chain. -/
theorem chain_trimWS (l : List Char) (h : List.Chain' noTwoWS l) :
    List.Chain' noTwoWS (trimWS l) :=
  chain_reverse_noTwoWS _
    (chain_dropWhile _ _ (chain_reverse_noTwoWS _ (chain_dropWhile _ _ h)))

/-- The first character of a trimmed list is not whitespace. -/
theorem trimWS_head_false (l : List Char) :
    ∀ c, (trimWS l).head? = some c → isJsWS c = false := by
  intro c hc
  unfold trimWS at hc
  rw [List.head?_reverse] at hc
  cases dropWhile_getLast isJsWS (l.dropWhile isJsWS).reverse with
  | inl h =>
    rw [h] at hc
    exact absurd hc (by simp)
  | inr h =>
    rw [h, List.getLast?_reverse] at hc
    exact dropWhile_head_false isJsWS l c hc

/-- The last character of a trimmed list is not whitespace. -/
theorem trimWS_getLast_false (l : List Char) :
    ∀ c, (trimWS l).getLast? = some c → isJsWS c = false := by
  intro c hc
  unfold trimWS at hc
  rw [List.getLast?_reverse] at hc
  exact dropWhile_head_false isJsWS _ c hc

/-- Trimming is the identity when both ends are not whitespace. -/
theorem trimWS_id (l : List Char)
    (hh : ∀ c, l.head? = some c → isJsWS c = false)
    (hl : ∀ c, l.getLast? = some c → isJsWS c = false) : trimWS l = l := by
  unfold trimWS
  rw [dropWhile_head_eq_self isJsWS l hh]
  rw [dropWhile_head_eq_self isJsWS l.reverse ?_]
  · exact List.reverse_reverse l
  · intro c hc
    rw [List.head?_reverse] at hc
    exact hl c hc

/-- C9: the text normalizer cleanText is idempotent; applying it twice
yields the same string as applying it once. -/
theorem cleanText_idempotent (s : List Char) :
    cleanText (cleanText s) = cleanText s := by
  have hws : ∀ c ∈ cleanText s, isJsWS c = true → c = ' ' := by
    intro c hc hwc
    exact collapseAux_ws_space (replaceNbsp s) false c
      (mem_trimWS _ c hc) hwc
  have hchain : List.Chain' noTwoWS (cleanText s) :=
    chain_trimWS _ (collapseAux_chain (replaceNbsp s) false)
  have hhead : ∀ c, (cleanText s).head? = some c → isJsWS c = false :=
    trimWS_head_false _
  have hlast : ∀ c, (cleanText s).getLast? = some c → isJsWS c = false :=
    trimWS_getLast_false _
  have h1 : replaceNbsp (cleanText s) = cleanText s := by
    unfold replaceNbsp
    have hpt : ∀ c ∈ cleanText s, (if c == nbsp then ' ' else c) = id c := by
      intro c hc
      by_cases hcn : c = nbsp
      · have hcs : c = ' ' := hws c hc (by rw [hcn]; decide)
        rw [hcs] at hcn
        exact absurd hcn (by decide)
      · have hf : (c == nbsp) = false := beq_eq_false_iff_ne.mpr hcn
        simp [hf]
    rw [List.map_congr_left hpt, List.map_id]
  have h2 : collapseWS (cleanText s) = cleanText s :=
    (collapseAux_id (cleanText s) hws hchain).1
  have h3 : trimWS (cleanText s) = cleanText s :=
    trimWS_id _ hhead hlast
  calc cleanText (cleanText s)
      = trimWS (collapseWS (replaceNbsp (cleanText s))) := rfl
    _ = cleanText s := by rw [h1, h2, h3]
